import Mathlib

/-
Verification of the pit content-addressable file vault (pit.py) against its
natural-language specification.  The Python source is embedded shallowly:
pure string manipulation is reproduced over lists of characters, the local
filesystem is an explicit state (paths mapped to inode numbers, inode
numbers mapped to permission modes and byte contents), and Python
exceptions become explicit error results that carry the state at the point
the exception was raised.  External collaborators (the SHA-256 digest from
hashlib, the success of a remote subprocess) are abstracted as parameters.
-/

namespace PitSpec

/-! Python string primitives, reproduced over lists of characters. -/

/-- Whitespace for Python str.split and str.strip. -/
def isPySpace (c : Char) : Bool :=
  c = ' ' || c = '\t' || c = '\n' || c = '\r' || c = '\x0b' || c = '\x0c'

/-- Python str.strip: remove leading and trailing whitespace. -/
def pyStrip (cs : List Char) : List Char :=
  ((cs.dropWhile isPySpace).reverse.dropWhile isPySpace).reverse

/-- Helper for pySplit: acc holds the current word reversed. -/
def pySplitAux (acc : List Char) : List Char → List (List Char)
  | [] => if acc = [] then [] else [acc.reverse]
  | c :: cs =>
    if isPySpace c then
      if acc = [] then pySplitAux [] cs else acc.reverse :: pySplitAux [] cs
    else pySplitAux (c :: acc) cs

/-- Python str.split() with no arguments: split on whitespace runs, no empty parts. -/
def pySplit (cs : List Char) : List (List Char) := pySplitAux [] cs

/-- Python str.split(maxsplit=n): at most n splits on whitespace; once the
budget is exhausted, leading whitespace is skipped and the rest of the
string (trailing whitespace included) is the final part. -/
def pySplitMax : Nat → List Char → List (List Char)
  | 0, cs =>
    let rest := cs.dropWhile isPySpace
    if rest = [] then [] else [rest]
  | n + 1, cs =>
    let rest := cs.dropWhile isPySpace
    if rest = [] then []
    else
      rest.takeWhile (fun c => !isPySpace c) ::
        pySplitMax n (rest.dropWhile (fun c => !isPySpace c))

/-- Python str.split(sep) for a one-character separator: split on every
occurrence, keeping empty parts. -/
def pySplitOnChar (sep : Char) : List Char → List (List Char)
  | [] => [[]]
  | c :: cs =>
    if c = sep then [] :: pySplitOnChar sep cs
    else
      match pySplitOnChar sep cs with
      | [] => [[c]]
      | r :: rs => (c :: r) :: rs

/-- Helper for readlines: acc holds the current line reversed. -/
def readlinesAux (acc : List Char) : List Char → List (List Char)
  | [] => if acc = [] then [] else [acc.reverse]
  | c :: cs =>
    if c = '\n' then (acc.reverse ++ ['\n']) :: readlinesAux [] cs
    else readlinesAux (c :: acc) cs

/-- Python file readlines: the lines of the text, each keeping its
terminating newline; a final unterminated line is kept as well. -/
def readlinesCore (cs : List Char) : List (List Char) := readlinesAux [] cs

/-- readlines on a String, returning Strings. -/
def readlinesS (s : String) : List String :=
  (readlinesCore s.data).map fun l => String.mk l

/-- Drop one trailing newline from a line, if present. -/
def stripNL (s : String) : String :=
  if s.data.getLast? = some '\n' then String.mk s.data.dropLast else s

/-! Paths.  A filesystem path is its list of segments (pathlib parts,
without the leading anchor); the string form joins them with slashes. -/

abbrev FPath := List String

/-- Characters of the string form of a path (segments joined by slashes). -/
def pathChars : FPath → List Char
  | [] => []
  | [s] => s.data
  | s :: rest => s.data ++ '/' :: pathChars rest

/-- String form of a path, as used by f-strings and colon tests in pit.py. -/
def pathStr (p : FPath) : String := String.mk (pathChars p)

/-- Python pathlib Path(s) applied to a slash-separated string: the segments. -/
def strToPath (s : String) : FPath := (pySplitOnChar '/' s.data).map fun l => String.mk l

/-- Whether the string form of a path contains a colon: the remote-location
test used throughout pit.py. -/
def hasColon (p : FPath) : Bool := (pathChars p).contains ':'

/-- Python test (a in p.parents): a is a proper ancestor directory of p. -/
def isProperAncestor (a p : FPath) : Bool := a.isPrefixOf p && !(a == p)

/-! The local filesystem state: regular files are paths bound to inode
numbers (hardlinked paths share an inode); each inode has permission mode
bits and byte contents; directories are a set of paths. -/

/-- Python exceptions that the embedded code can raise. -/
inductive PyErr where
  | valueError
  | fileNotFoundError
  | fileExistsError
  | calledProcessError
  | ioError
deriving DecidableEq

structure FS where
  files : List (FPath × Nat)
  dirs : List FPath
  modes : List (Nat × Nat)
  data : List (Nat × List Nat)
deriving DecidableEq

/-- Replace the binding of a key in an association list (inserting it in front). -/
def insertAssoc [BEq α] (l : List (α × β)) (k : α) (v : β) : List (α × β) :=
  (k, v) :: l.filter fun p => !(p.1 == k)

/-- Python os.chmod through a pathlib handle: set the mode of the path's inode. -/
def chmodFS (fs : FS) (p : FPath) (m : Nat) : Except PyErr FS :=
  match List.lookup p fs.files with
  | none => .error .fileNotFoundError
  | some i => .ok { fs with modes := insertAssoc fs.modes i m }

/-- Embedding of move (pit.py lines 235-245).  If either location's string
form contains a colon the remote branch runs: the destination is split on
the colon into host and path (raising ValueError when that does not give
exactly two parts) and the remote mkdir and scp subprocesses run, leaving
the local filesystem untouched.  Otherwise the local branch creates the
destination's parent directories, hardlinks the destination to the source's
inode and sets both paths to mode 0o440.  Errors carry the state at the
point the exception was raised. -/
def move (fs : FS) (src dst : FPath) : Except (PyErr × FS) FS :=
  if hasColon src || hasColon dst then
    match pySplitOnChar ':' (pathChars dst) with
    | [_host, _rpath] => .ok fs
    | _ => .error (.valueError, fs)
  else
    let fs1 : FS := { fs with dirs := fs.dirs ++ dst.dropLast.inits }
    match List.lookup src fs1.files with
    | none => .error (.fileNotFoundError, fs1)
    | some i =>
      if (List.lookup dst fs1.files).isSome then .error (.fileExistsError, fs1)
      else
        let fs2 : FS := { fs1 with files := fs1.files ++ [(dst, i)] }
        match chmodFS fs2 src 0o440 with
        | .error e => .error (e, fs2)
        | .ok fs3 =>
          match chmodFS fs3 dst 0o440 with
          | .error e => .error (e, fs3)
          | .ok fs4 => .ok fs4

/-- Embedding of hash_content (pit.py lines 247-253): the code performs a
single fd.read(4096), so only the first 4096 bytes of the file reach the
digest.  The SHA-256 digest itself (hashlib, an external library) is
abstracted as the parameter sha256hex. -/
def hash_content (sha256hex : List Nat → String) (contents : List Nat) : String :=
  sha256hex (contents.take 4096)

/-! The repository handle and its state.  A Pit handle (pit.py lines 16-73)
resolves a root directory (ending in the segment .pit), reads the object
store location from its configuration, and lazily caches the index.  The
configuration value and the root are collected in PitCfg; the mutable parts
(the local filesystem, the durable index file's text, the in-memory index
cache, and whether the configuration file exists) form PitSt. -/

structure PitCfg where
  root : FPath
  objectStore : FPath
deriving DecidableEq

structure PitSt where
  fs : FS
  indexFile : String
  indexCache : Option (List String)
  configExists : Bool
deriving DecidableEq

/-- Embedding of the Pit.index property (pit.py lines 41-48), local
transport branch: on first access the durable index file is read with
readlines and cached; later accesses return the cache. -/
def readIndex (st : PitSt) : List String × PitSt :=
  match st.indexCache with
  | some lines => (lines, st)
  | none =>
    let lines := readlinesS st.indexFile
    (lines, { st with indexCache := some lines })

/-- Embedding of Pit.add_to_index (pit.py lines 50-58).  The durable append
(a local file append, or a remote echo over ssh) runs first; whether it
succeeds is abstracted by the oracle durableOk.  Both branches durably add
the entry followed by a newline.  Only after a successful durable write is
the entry appended to the in-memory cache, when one exists -- note the cache
receives the entry without the trailing newline.  A failed durable write
raises, leaving the whole state unchanged. -/
def add_to_index (durableOk : Bool) (st : PitSt) (entry : String) :
    Except (PyErr × PitSt) PitSt :=
  if durableOk then
    .ok { st with
      indexFile := st.indexFile ++ entry ++ "\n",
      indexCache := st.indexCache.map fun l => l ++ [entry] }
  else .error (.calledProcessError, st)

/-- A candidate file handed to add: the path as enumerated, the path after
resolution of symlinks and dot segments (os-level, so taken as given), and
whether the path itself is a symbolic link. -/
structure Candidate where
  path : FPath
  resolved : FPath
  isSymlink : Bool
deriving DecidableEq

/-- Embedding of Pit.verify_file (pit.py lines 63-73): refuse a file lying
inside the repository root, refuse a symbolic link, refuse a file whose
resolved path is not strictly below the root's parent. -/
def verify_file (root : FPath) (c : Candidate) : Bool :=
  if isProperAncestor root c.path then false
  else if c.isSymlink then false
  else if !(isProperAncestor root.dropLast c.resolved) then false
  else true

/-- Python pathlib relative_to: the suffix of p past base, or ValueError. -/
def relativeTo (p base : FPath) : Option FPath :=
  if base.isPrefixOf p then some (p.drop base.length) else none

/-- Entry text built by add (pit.py line 170): mode, fingerprint and
relative path separated by single spaces. -/
def entryLine (mode : Nat) (fhash relStr : String) : String :=
  toString mode ++ " " ++ fhash ++ " " ++ relStr

/-- Object path as computed by add (pit.py line 173): the store root, then
the first two characters of the fingerprint, then the rest. -/
def addObjectPath (store : FPath) (fhash : String) : FPath :=
  store ++ [fhash.take 2, fhash.drop 2]

/-- Object path as computed by checkout (pit.py line 197). -/
def checkoutObjectPath (store : FPath) (fhash : String) : FPath :=
  store ++ [fhash.take 2, fhash.drop 2]

/-- One state of the index scan inside add (pit.py lines 175-183): every
line is stripped and split on whitespace and unpacked into three fields
(ValueError otherwise); to_add is cleared when a line carries the file's
fingerprint or its relative path.  The loop has no break, so every line is
examined. -/
def scanIndexFrom (fhash relStr : String) (toAdd : Bool) :
    List String → Except PyErr Bool
  | [] => .ok toAdd
  | e :: rest =>
    match pySplit (pyStrip e.data) with
    | [_m, h, p] =>
      scanIndexFrom fhash relStr
        (toAdd && !(String.mk h == fhash) && !(String.mk p == relStr)) rest
    | _ => .error .valueError

/-- The index scan inside add, started with to_add set. -/
def scanIndex (lines : List String) (fhash relStr : String) : Except PyErr Bool :=
  scanIndexFrom fhash relStr true lines

/-- Embedding of the per-file body of add's loop (pit.py lines 159-187):
verify the file (skipping it quietly on failure), stat it for its mode,
hash its contents, build the entry and the object path, scan the index for
a duplicate fingerprint or duplicate relative path, and if the file is
accepted move it into the object store and append the entry to the index. -/
def addFile (sha256hex : List Nat → String) (durableOk : Bool) (cfg : PitCfg)
    (st : PitSt) (c : Candidate) : Except (PyErr × PitSt) PitSt :=
  if !(verify_file cfg.root c) then .ok st
  else
    let fn := c.resolved
    match List.lookup fn st.fs.files with
    | none => .error (.fileNotFoundError, st)
    | some i =>
      match List.lookup i st.fs.modes, List.lookup i st.fs.data with
      | some mode, some bytes =>
        let fhash := hash_content sha256hex bytes
        match relativeTo fn cfg.root.dropLast with
        | none => .error (.valueError, st)
        | some rel =>
          let relStr := pathStr rel
          let entry := entryLine mode fhash relStr
          let newPath := addObjectPath cfg.objectStore fhash
          let scanned := readIndex st
          match scanIndex scanned.1 fhash relStr with
          | .error e => .error (e, scanned.2)
          | .ok toAdd =>
            if toAdd then
              match move scanned.2.fs fn newPath with
              | .error (e, fs') => .error (e, { scanned.2 with fs := fs' })
              | .ok fs' => add_to_index durableOk { scanned.2 with fs := fs' } entry
            else .ok scanned.2
      | _, _ => .error (.ioError, st)

/-- Embedding of add (pit.py lines 140-187).  When the repository's
configuration file does not exist, add logs an error and returns with no
effect.  Otherwise the candidate files (the single file, or the files
enumerated from a directory by os.walk, which is os-level and so taken as
given) are processed in order by the loop body addFile. -/
def add (sha256hex : List Nat → String) (durableOk : Bool) (cfg : PitCfg)
    (st : PitSt) (files : List Candidate) : Except (PyErr × PitSt) PitSt :=
  if !st.configExists then .ok st
  else files.foldlM (addFile sha256hex durableOk cfg) st

/-- Embedding of checkout's index loop (pit.py lines 192-199): each line is
split with maxsplit 3 and unpacked into three fields (ValueError
otherwise); on the first line whose stripped path equals the requested
relative path, the stored object is moved back to the original location and
the loop breaks. -/
def checkoutLoop (cfg : PitCfg) (fname : FPath) (fs : FS) :
    List String → Except (PyErr × FS) FS
  | [] => .ok fs
  | line :: rest =>
    match pySplitMax 3 line.data with
    | [_m, h, p] =>
      if strToPath (String.mk (pyStrip p)) == fname then
        move fs (checkoutObjectPath cfg.objectStore (String.mk h))
          (cfg.root.dropLast ++ fname)
      else checkoutLoop cfg fname fs rest
    | _ => .error (.valueError, fs)

/-- Embedding of checkout (pit.py lines 189-199): the argument is resolved
(os-level, taken as given) and made relative to the root's parent
(ValueError if it lies outside), then the index loop runs. -/
def checkout (cfg : PitCfg) (st : PitSt) (resolvedArg : FPath) :
    Except (PyErr × PitSt) PitSt :=
  match relativeTo resolvedArg cfg.root.dropLast with
  | none => .error (.valueError, st)
  | some fname =>
    let scanned := readIndex st
    match checkoutLoop cfg fname scanned.2.fs scanned.1 with
    | .error (e, fs') => .error (e, { scanned.2 with fs := fs' })
    | .ok fs' => .ok { scanned.2 with fs := fs' }

/-! Repository initialisation.  For init the filesystem is viewed at the
level init manipulates it: directories, files created empty by touch, and
configuration files recorded by the single value they carry (core.url, a
path), since configparser serialisation is an external library. -/

structure InitFS where
  dirs : List FPath
  plainFiles : List FPath
  configs : List (FPath × FPath)
deriving DecidableEq

/-- Root computation of the Pit constructor (pit.py lines 17-21): the
resolved target, with a .pit segment appended unless it already ends in one. -/
def pitRootOf (dirc : FPath) : FPath :=
  if dirc.getLast? = some ".pit" then dirc else dirc ++ [".pit"]

/-- Embedding of init together with write_default_config (pit.py lines
93-114).  If the configuration file already exists, FileExistsError is
raised with nothing changed (get_root_pit only logs).  Otherwise the root
directory and its ancestors are created, the configuration file is written
with core.url set to the objects directory under the root, the index file
is touched, and the object store directory is created (mkdir without
exist_ok, so an already existing objects directory raises). -/
def init (s : InitFS) (dirc : FPath) : Except (PyErr × InitFS) InitFS :=
  let root := pitRootOf dirc
  let config_fn := root ++ ["config"]
  if (List.lookup config_fn s.configs).isSome then .error (.fileExistsError, s)
  else
    let s1 : InitFS := { s with
      dirs := s.dirs ++ root.inits,
      configs := s.configs ++ [(config_fn, root ++ ["objects"])] }
    let s2 : InitFS := { s1 with plainFiles := s1.plainFiles ++ [root ++ ["index"]] }
    if (root ++ ["objects"]) ∈ s2.dirs then .error (.fileExistsError, s2)
    else .ok { s2 with dirs := s2.dirs ++ [root ++ ["objects"]] }

/-! Helper lemmas about association lists and the filesystem model. -/

theorem lookup_append_left [BEq α] (l1 l2 : List (α × β)) (k : α) (v : β)
    (h : List.lookup k l1 = some v) : List.lookup k (l1 ++ l2) = some v := by
  induction l1 with
  | nil => simp [List.lookup] at h
  | cons p rest ih =>
    rw [List.cons_append]
    by_cases hk : (k == p.1) = true
    · simpa [List.lookup, hk] using by simpa [List.lookup, hk] using h
    · simp only [Bool.not_eq_true] at hk
      rw [List.lookup] at h ⊢
      simp only [hk] at h ⊢
      exact ih h

theorem lookup_append_right [BEq α] (l1 l2 : List (α × β)) (k : α)
    (h : List.lookup k l1 = none) : List.lookup k (l1 ++ l2) = List.lookup k l2 := by
  induction l1 with
  | nil => simp
  | cons p rest ih =>
    rw [List.cons_append]
    by_cases hk : (k == p.1) = true
    · simp [List.lookup, hk] at h
    · simp only [Bool.not_eq_true] at hk
      rw [List.lookup] at h ⊢
      simp only [hk] at h ⊢
      exact ih h

theorem lookup_insertAssoc_self [BEq α] [LawfulBEq α] (l : List (α × β)) (k : α) (v : β) :
    List.lookup k (insertAssoc l k v) = some v := by
  simp [insertAssoc, List.lookup]

/-- The mode bits at a path: the mode of the path's inode, when the path
is bound to one. -/
def modeAt (fs : FS) (p : FPath) : Option Nat :=
  (List.lookup p fs.files).bind fun i => List.lookup i fs.modes

/-- The filesystem after a successful local move: the destination hardlinked
to the source's inode, the destination's parent directories created, and
the shared inode set to mode 0o440. -/
def linkReadonly (fs : FS) (dst : FPath) (i : Nat) : FS :=
  { files := fs.files ++ [(dst, i)],
    dirs := fs.dirs ++ dst.dropLast.inits,
    modes := insertAssoc (insertAssoc fs.modes i 0o440) i 0o440,
    data := fs.data }

theorem move_local_ok (fs : FS) (src dst : FPath) (i : Nat)
    (hs : hasColon src = false) (hd : hasColon dst = false)
    (hsrc : List.lookup src fs.files = some i)
    (hdst : List.lookup dst fs.files = none) :
    move fs src dst = .ok (linkReadonly fs dst i) := by
  have hsrc2 : List.lookup src (fs.files ++ [(dst, i)]) = some i :=
    lookup_append_left _ _ _ _ hsrc
  have hdst2 : List.lookup dst (fs.files ++ [(dst, i)]) = some i := by
    rw [lookup_append_right _ _ _ hdst]; simp [List.lookup]
  simp only [move, hs, hd, Bool.or_self, Bool.false_eq_true, if_false, hsrc,
    hdst, Option.isSome_none, linkReadonly, chmodFS, hsrc2, hdst2]

/-! C1.  The spec requires hash_content to digest the file's complete
contents; the code digests only the first 4096 bytes (a single
fd.read(4096)), so distinct files sharing a 4096-byte initial window
collide. -/

/-- A 4096-byte window shared by the two witness files. -/
def windowBytes : List Nat := List.replicate 4096 97

/-- A 4097-byte file: the shared window followed by byte 97. -/
def fileA4097 : List Nat := windowBytes ++ [97]

/-- A 4097-byte file: the shared window followed by byte 98. -/
def fileB4097 : List Nat := windowBytes ++ [98]

/-- C1: refuted on the code.  hash_content digests only the first 4096
bytes, so the two distinct 4097-byte files fileA4097 and fileB4097 receive
the same fingerprint whatever digest hashlib computes: the claim that the
digest covers the complete contents (and that distinct contents sharing an
initial window get distinct fingerprints) fails. -/
theorem C1_hash_window_collision :
    fileA4097 ≠ fileB4097 ∧
      ∀ sha256hex : List Nat → String,
        hash_content sha256hex fileA4097 = hash_content sha256hex fileB4097 := by
  constructor
  · intro h
    rw [fileA4097, fileB4097] at h
    have h2 : [(97 : Nat)] = [98] := List.append_cancel_left h
    simp at h2
  · intro sha256hex
    have ht : ∀ x : Nat, (windowBytes ++ [x]).take 4096 = windowBytes := by
      intro x
      have hl : windowBytes.length = 4096 := by
        rw [windowBytes]; exact List.length_replicate 4096 97
      rw [← hl, List.take_left]
    show sha256hex (fileA4097.take 4096) = sha256hex (fileB4097.take 4096)
    rw [fileA4097, fileB4097, ht, ht]

/-- C5: a local move creates the destination's parent directories, makes
the destination a hardlink of the source (both paths bound to the same
inode), and leaves both paths at mode 0o440, which has no write bit for
owner, group or other (0o222 masks the three write bits). -/
theorem C5_move_local (fs : FS) (src dst : FPath) (i : Nat)
    (hs : hasColon src = false) (hd : hasColon dst = false)
    (hsrc : List.lookup src fs.files = some i)
    (hdst : List.lookup dst fs.files = none) :
    ∃ fs', move fs src dst = .ok fs' ∧
      List.lookup src fs'.files = some i ∧
      List.lookup dst fs'.files = some i ∧
      (∀ q ∈ dst.dropLast.inits, q ∈ fs'.dirs) ∧
      modeAt fs' src = some 0o440 ∧
      modeAt fs' dst = some 0o440 ∧
      (0o440 : Nat) &&& 0o222 = 0 := by
  refine ⟨linkReadonly fs dst i, move_local_ok fs src dst i hs hd hsrc hdst, ?_⟩
  have hsrc2 : List.lookup src (fs.files ++ [(dst, i)]) = some i :=
    lookup_append_left _ _ _ _ hsrc
  have hdst2 : List.lookup dst (fs.files ++ [(dst, i)]) = some i := by
    rw [lookup_append_right _ _ _ hdst]; simp [List.lookup]
  have hmode : List.lookup i (linkReadonly fs dst i).modes = some 0o440 :=
    lookup_insertAssoc_self _ _ _
  refine ⟨hsrc2, hdst2, ?_, ?_, ?_, by decide⟩
  · intro q hq
    show q ∈ fs.dirs ++ dst.dropLast.inits
    exact List.mem_append.2 (Or.inr hq)
  · simp only [modeAt, linkReadonly] at hmode ⊢
    rw [hsrc2]
    simpa using hmode
  · simp only [modeAt, linkReadonly] at hmode ⊢
    rw [hdst2]
    simpa using hmode

/-- C6: add (line 173) and checkout (line 197) address an Object through
the same deterministic shard scheme: the store root, then the first two
characters of the fingerprint, then the remaining characters. -/
theorem C6_shard_scheme (store : FPath) (fhash : String) :
    addObjectPath store fhash = store ++ [fhash.take 2, fhash.drop 2] ∧
      checkoutObjectPath store fhash = addObjectPath store fhash :=
  ⟨rfl, rfl⟩

/-- C9: when the repository's configuration file does not exist, add logs
and returns normally; neither the object store nor the index is touched,
whatever files were asked for. -/
theorem C9_add_without_config (sha256hex : List Nat → String) (durableOk : Bool)
    (cfg : PitCfg) (st : PitSt) (files : List Candidate)
    (h : st.configExists = false) :
    add sha256hex durableOk cfg st files = .ok st := by
  simp [add, h]

/-- Colon splitting leaves a colon-free string whole. -/
theorem pySplitOnChar_of_not_contains (sep : Char) (cs : List Char)
    (h : cs.contains sep = false) : pySplitOnChar sep cs = [cs] := by
  induction cs with
  | nil => rfl
  | cons c rest ih =>
    rw [List.contains_cons] at h
    simp only [Bool.or_eq_false_iff] at h
    have hc : c ≠ sep := Ne.symm (by simpa using h.1)
    rw [pySplitOnChar, if_neg hc, ih h.2]

/-- C10: a move whose source string contains a colon while the destination
string does not (checkout from a remote object store to a local working
tree) takes the remote branch and fails unpacking the destination's split
on the colon: ValueError is raised before any subprocess, link, directory
creation or permission change, and the local filesystem is unchanged. -/
theorem C10_remote_src_local_dst (fs : FS) (src dst : FPath)
    (hs : hasColon src = true) (hd : hasColon dst = false) :
    move fs src dst = .error (.valueError, fs) := by
  have hsplit : pySplitOnChar ':' (pathChars dst) = [pathChars dst] :=
    pySplitOnChar_of_not_contains ':' (pathChars dst) hd
  simp [move, hs, hsplit]

/-- C3: a candidate that is a symbolic link, or that lies inside the
repository root directory, never passes verify_file, so add skips it: no
object is stored, no index entry is appended, the state is returned
untouched. -/
theorem C3_reject_symlink_or_inside_root (sha256hex : List Nat → String)
    (durableOk : Bool) (cfg : PitCfg) (st : PitSt) (c : Candidate)
    (h : c.isSymlink = true ∨ isProperAncestor cfg.root c.path = true) :
    add sha256hex durableOk cfg st [c] = .ok st := by
  have hv : verify_file cfg.root c = false := by
    unfold verify_file
    rcases h with h | h
    · cases hp : isProperAncestor cfg.root c.path <;> simp [hp, h]
    · simp [h]
  by_cases hc : st.configExists = true
  · simp [add, hc, addFile, hv, List.foldlM]
  · simp only [Bool.not_eq_true] at hc
    simp [add, hc]

/-! C7: checkout of a path matching no index entry is a silent no-op. -/

/-- Whether an index line's stripped path field, read back as a path,
names the given relative path (the comparison checkout performs). -/
def checkoutLineHits (fname : FPath) (line : String) : Bool :=
  match pySplitMax 3 line.data with
  | [_m, _h, p] => strToPath (String.mk (pyStrip p)) == fname
  | _ => false

/-- Reading the index only populates the in-memory cache: filesystem,
durable index text and configuration flag are untouched. -/
theorem readIndex_parts (st : PitSt) :
    (readIndex st).2.fs = st.fs ∧ (readIndex st).2.indexFile = st.indexFile ∧
      (readIndex st).2.configExists = st.configExists ∧
      (readIndex st).2.indexCache = some (readIndex st).1 := by
  cases h : st.indexCache <;> simp [readIndex, h]

/-- The checkout loop over lines none of which names the requested path
performs no move and returns the filesystem unchanged. -/
theorem checkoutLoop_no_match (cfg : PitCfg) (fname : FPath) (fs : FS)
    (lines : List String)
    (hwf : ∀ line ∈ lines, (pySplitMax 3 line.data).length = 3)
    (hmiss : ∀ line ∈ lines, checkoutLineHits fname line = false) :
    checkoutLoop cfg fname fs lines = .ok fs := by
  induction lines with
  | nil => rfl
  | cons line rest ih =>
    obtain ⟨m, h, p, hp⟩ := List.length_eq_three.1 (hwf line (by simp))
    have hm := hmiss line (by simp)
    simp only [checkoutLineHits, hp] at hm
    simp only [checkoutLoop, hp, hm, Bool.false_eq_true, if_false]
    exact ih (fun l hl => hwf l (by simp [hl])) (fun l hl => hmiss l (by simp [hl]))

/-- C7: when the resolved argument's relative form matches no index entry,
checkout returns successfully having moved nothing: the filesystem and the
durable index are exactly as before (only the in-memory index cache may
have been populated by the read). -/
theorem C7_checkout_no_match (cfg : PitCfg) (st : PitSt) (resolvedArg fname : FPath)
    (hrel : relativeTo resolvedArg cfg.root.dropLast = some fname)
    (hwf : ∀ line ∈ (readIndex st).1, (pySplitMax 3 line.data).length = 3)
    (hmiss : ∀ line ∈ (readIndex st).1, checkoutLineHits fname line = false) :
    checkout cfg st resolvedArg = .ok (readIndex st).2 ∧
      (readIndex st).2.fs = st.fs ∧ (readIndex st).2.indexFile = st.indexFile := by
  have hloop := checkoutLoop_no_match cfg fname (readIndex st).2.fs (readIndex st).1 hwf hmiss
  refine ⟨?_, (readIndex_parts st).1, (readIndex_parts st).2.1⟩
  simp only [checkout, hrel, hloop]

/-- C8: init refuses (raising FileExistsError, changing nothing) when the
target's configuration file already exists; on a fresh target it creates
the root directory, the index file, the object store directory, and a
configuration whose core.url is the objects directory under the new root. -/
theorem C8_init (s : InitFS) (dirc : FPath) :
    ((List.lookup (pitRootOf dirc ++ ["config"]) s.configs).isSome = true →
        init s dirc = .error (.fileExistsError, s)) ∧
    ((List.lookup (pitRootOf dirc ++ ["config"]) s.configs).isSome = false →
      (pitRootOf dirc ++ ["objects"]) ∉ s.dirs →
      ∃ s', init s dirc = .ok s' ∧
        pitRootOf dirc ∈ s'.dirs ∧
        (pitRootOf dirc ++ ["index"]) ∈ s'.plainFiles ∧
        (pitRootOf dirc ++ ["objects"]) ∈ s'.dirs ∧
        List.lookup (pitRootOf dirc ++ ["config"]) s'.configs =
          some (pitRootOf dirc ++ ["objects"])) := by
  constructor
  · intro h
    simp [init, h]
  · intro h hobj
    have hnone : List.lookup (pitRootOf dirc ++ ["config"]) s.configs = none := by
      cases hl : List.lookup (pitRootOf dirc ++ ["config"]) s.configs with
      | none => rfl
      | some v => rw [hl] at h; simp at h
    have hnotinits : (pitRootOf dirc ++ ["objects"]) ∉ (pitRootOf dirc).inits := by
      intro hmem
      have hpre := (List.mem_inits _ _).1 hmem
      have hlen := hpre.length_le
      simp at hlen
    have hcond : (pitRootOf dirc ++ ["objects"]) ∉ s.dirs ++ (pitRootOf dirc).inits := by
      intro hmem
      rcases List.mem_append.1 hmem with hmem | hmem
      exacts [hobj hmem, hnotinits hmem]
    refine ⟨{ dirs := (s.dirs ++ (pitRootOf dirc).inits) ++ [pitRootOf dirc ++ ["objects"]],
              plainFiles := s.plainFiles ++ [pitRootOf dirc ++ ["index"]],
              configs := s.configs ++ [(pitRootOf dirc ++ ["config"], pitRootOf dirc ++ ["objects"])] },
            ?_, ?_, ?_, ?_, ?_⟩
    · simp only [init, hnone, Option.isSome_none, Bool.false_eq_true, if_false]
      rw [if_neg hcond]
    · exact List.mem_append.2 (Or.inl (List.mem_append.2
        (Or.inr (by simp [List.mem_inits]))))
    · simp
    · simp
    · rw [lookup_append_right _ _ _ hnone]
      simp [List.lookup]

/-! C4: the write-through of add_to_index, and the exact relationship
between the in-memory cache and a re-read of the durable index file. -/

theorem mem_of_getLast?_eq (l : List α) (a : α) (h : l.getLast? = some a) : a ∈ l := by
  obtain ⟨hne, heq⟩ := List.mem_getLast?_eq_getLast (l := l) (x := a) (by simp [h])
  rw [heq]
  exact List.getLast_mem hne

/-- Unfolding equation of readlinesAux at a newline. -/
theorem readlinesAux_cons_nl (acc cs : List Char) :
    readlinesAux acc ('\n' :: cs) = (acc.reverse ++ ['\n']) :: readlinesAux [] cs := by
  rw [readlinesAux, if_pos rfl]

/-- Unfolding equation of readlinesAux at an ordinary character. -/
theorem readlinesAux_cons_other (c : Char) (hc : ¬ c = '\n') (acc cs : List Char) :
    readlinesAux acc (c :: cs) = readlinesAux (c :: acc) cs := by
  rw [readlinesAux, if_neg hc]

/-- Reading a newline-terminated line whose body has no interior newline
yields that single line, flushing the accumulator before it. -/
theorem readlinesAux_no_newline (es : List Char) (hes : '\n' ∉ es) (acc : List Char) :
    readlinesAux acc (es ++ ['\n']) = [acc.reverse ++ es ++ ['\n']] := by
  induction es generalizing acc with
  | nil => simp [readlinesAux_cons_nl, readlinesAux]
  | cons c rest ih =>
    have hc : ¬ c = '\n' := fun h => hes (h ▸ List.mem_cons_self c rest)
    have hrest : '\n' ∉ rest := fun h => hes (List.mem_cons_of_mem c h)
    rw [List.cons_append, readlinesAux_cons_other c hc, ih hrest]
    simp

/-- Reading a newline-terminated text followed by more text reads the two
parts independently: the terminator flushes every accumulator. -/
theorem readlinesAux_append_of_terminated (cs : List Char) (hne : cs ≠ [])
    (hterm : cs.getLast? = some '\n') (acc ds : List Char) :
    readlinesAux acc (cs ++ ds) = readlinesAux acc cs ++ readlinesAux [] ds := by
  induction cs generalizing acc with
  | nil => exact absurd rfl hne
  | cons c rest ih =>
    by_cases hrnil : rest = []
    · subst hrnil
      have hc : c = '\n' := by simpa using hterm
      subst hc
      rw [List.cons_append, List.nil_append, readlinesAux_cons_nl,
        readlinesAux_cons_nl]
      simp [readlinesAux]
    · have hterm2 : rest.getLast? = some '\n' := by
        obtain ⟨r, rs, hr⟩ := List.exists_cons_of_ne_nil hrnil
        subst hr
        simpa [List.getLast?_cons_cons] using hterm
      by_cases hc : c = '\n'
      · subst hc
        rw [List.cons_append, readlinesAux_cons_nl, readlinesAux_cons_nl,
          ih hrnil hterm2 []]
        simp
      · rw [List.cons_append, readlinesAux_cons_other c hc,
          readlinesAux_cons_other c hc, ih hrnil hterm2 (c :: acc)]

/-- Appending one newline-free entry plus terminator to an empty or
newline-terminated text appends exactly one line to its readlines view. -/
theorem readlinesCore_append_line (file es : List Char)
    (hterm : file = [] ∨ file.getLast? = some '\n') (hes : '\n' ∉ es) :
    readlinesCore (file ++ es ++ ['\n']) = readlinesCore file ++ [es ++ ['\n']] := by
  rcases hterm with h | h
  · subst h
    simp [readlinesCore, readlinesAux_no_newline es hes, readlinesAux]
  · have hne : file ≠ [] := by
      intro h0
      rw [h0] at h
      simp at h
    rw [readlinesCore, List.append_assoc,
      readlinesAux_append_of_terminated file hne h [] (es ++ ['\n']),
      readlinesAux_no_newline es hes []]
    simp [readlinesCore]

/-- stripNL is the identity on a line with no newline at all. -/
theorem stripNL_no_newline (s : String) (h : '\n' ∉ s.data) : stripNL s = s := by
  rw [stripNL, if_neg]
  intro hlast
  exact h (mem_of_getLast?_eq _ _ hlast)

/-- stripNL removes exactly the terminator of a terminated line. -/
theorem stripNL_concat_newline (es : List Char) :
    stripNL (String.mk (es ++ ['\n'])) = String.mk es := by
  simp [stripNL]

/-- Starting state of the C4 counterexample: an empty, freshly loaded index. -/
def st4start : PitSt :=
  { fs := { files := [], dirs := [], modes := [], data := [] },
    indexFile := "", indexCache := some [], configExists := true }

/-- State after the C4 counterexample append. -/
def st4after : PitSt :=
  { fs := { files := [], dirs := [], modes := [], data := [] },
    indexFile := "e\n", indexCache := some ["e"], configExists := true }

/-- C4 counterexample: after a successful append of the entry e to an
empty index whose cache is loaded and in sync, the cache holds the line
without its newline while re-reading the durable file returns it with the
newline: the cached index does not equal the re-read line sequence, so the
final equality of the claim fails as stated. -/
theorem C4_cache_reread_diverge :
    add_to_index true st4start "e" = .ok st4after ∧
      st4after.indexCache ≠ some (readlinesS st4after.indexFile) := by
  constructor
  · rfl
  · intro h
    have : (["e"] : List String) = readlinesS "e\n" := by
      simpa [st4after] using h
    simp [readlinesS, readlinesCore, readlinesAux] at this

/-- C4 amended: add_to_index writes through to the durable index first and
touches the in-memory cache only if the durable write succeeded; a failed
durable append raises with the state unchanged.  After a successful append
of a newline-free entry to a cache in sync with an empty or
newline-terminated durable file, the cache equals the re-read line
sequence only up to trailing newline terminators: the cached entry lacks
the newline that re-reading returns, so the lists agree after stripNL. -/
theorem C4_add_to_index_writethrough (st : PitSt) (entry : String)
    (hsync : st.indexCache = some (readlinesS st.indexFile))
    (hterm : st.indexFile.data = [] ∨ st.indexFile.data.getLast? = some '\n')
    (hnl : '\n' ∉ entry.data) :
    add_to_index false st entry = .error (.calledProcessError, st) ∧
      ∀ st', add_to_index true st entry = .ok st' →
        st'.indexCache.map (fun l => l.map stripNL) =
          some ((readlinesS st'.indexFile).map stripNL) := by
  constructor
  · rfl
  · intro st' hok
    rw [add_to_index, if_pos rfl] at hok
    have hok2 := Except.ok.inj hok
    subst hok2
    have hdata : (st.indexFile ++ entry ++ "\n").data
        = st.indexFile.data ++ entry.data ++ ['\n'] := by
      simp [String.data_append]
    have hcore : readlinesS (st.indexFile ++ entry ++ "\n")
        = readlinesS st.indexFile ++ [String.mk (entry.data ++ ['\n'])] := by
      rw [readlinesS, hdata, readlinesCore_append_line st.indexFile.data entry.data hterm hnl]
      simp [readlinesS]
    simp only [hsync, Option.map_some, hcore]
    simp [stripNL_concat_newline, stripNL_no_newline entry hnl]

/-! C2: deduplication by fingerprint and by path. -/

/-- A nonempty whitespace-free field, as the fields of an index entry are. -/
def isToken (s : String) : Bool := !s.data.isEmpty && s.data.all fun c => !isPySpace c

/-- Whether an index line parses into exactly three fields. -/
def lineFields (line : String) : Bool := (pySplit (pyStrip line.data)).length == 3

/-- Whether an index line carries the given fingerprint. -/
def lineHashIs (fhash line : String) : Bool :=
  match pySplit (pyStrip line.data) with
  | [_m, h, _p] => String.mk h == fhash
  | _ => false

/-- Whether an index line carries the given relative path. -/
def linePathIs (relStr line : String) : Bool :=
  match pySplit (pyStrip line.data) with
  | [_m, _h, p] => String.mk p == relStr
  | _ => false

/-- Unfolding equation of pySplitAux on the empty text. -/
theorem pySplitAux_nil (acc : List Char) :
    pySplitAux acc [] = if acc = [] then [] else [acc.reverse] := by
  rw [pySplitAux]

/-- Unfolding equation of pySplitAux at a whitespace character. -/
theorem pySplitAux_cons_space (c : Char) (hc : isPySpace c = true) (acc cs : List Char) :
    pySplitAux acc (c :: cs) =
      if acc = [] then pySplitAux [] cs else acc.reverse :: pySplitAux [] cs := by
  rw [pySplitAux, if_pos hc]

/-- Unfolding equation of pySplitAux at a non-whitespace character. -/
theorem pySplitAux_cons_other (c : Char) (hc : isPySpace c = false) (acc cs : List Char) :
    pySplitAux acc (c :: cs) = pySplitAux (c :: acc) cs := by
  rw [pySplitAux, if_neg (by simp [hc])]

/-- pySplitAux consumes a whole whitespace-free word into the accumulator. -/
theorem pySplitAux_word (w : List Char) (hw : ∀ c ∈ w, isPySpace c = false)
    (acc cs : List Char) :
    pySplitAux acc (w ++ cs) = pySplitAux (w.reverse ++ acc) cs := by
  induction w generalizing acc with
  | nil => simp
  | cons c rest ih =>
    rw [List.cons_append, pySplitAux_cons_other c (hw c (by simp)),
      ih (fun x hx => hw x (by simp [hx])) (c :: acc)]
    simp

/-- Python split() of three whitespace-free words joined by single spaces. -/
theorem pySplit_three_tokens (w1 w2 w3 : List Char)
    (h1 : w1 ≠ []) (h2 : w2 ≠ []) (h3 : w3 ≠ [])
    (hw1 : ∀ c ∈ w1, isPySpace c = false)
    (hw2 : ∀ c ∈ w2, isPySpace c = false)
    (hw3 : ∀ c ∈ w3, isPySpace c = false) :
    pySplit (w1 ++ ' ' :: (w2 ++ ' ' :: w3)) = [w1, w2, w3] := by
  have hsp : isPySpace ' ' = true := rfl
  have hw3done : pySplitAux ([] : List Char) w3 = [w3] := by
    have hstep := pySplitAux_word w3 hw3 [] []
    rw [List.append_nil] at hstep
    rw [hstep, List.append_nil, pySplitAux_nil, if_neg (by simp [h3])]
    simp
  rw [pySplit, pySplitAux_word w1 hw1 [] _, List.append_nil,
    pySplitAux_cons_space ' ' hsp, if_neg (by simp [h1]),
    pySplitAux_word w2 hw2 [] _, List.append_nil,
    pySplitAux_cons_space ' ' hsp, if_neg (by simp [h2]), hw3done]
  simp

/-- dropWhile does nothing when the first character is kept. -/
theorem dropWhile_eq_self_of_head (cs : List Char)
    (h : ∀ c, cs.head? = some c → isPySpace c = false) :
    cs.dropWhile isPySpace = cs := by
  cases cs with
  | nil => rfl
  | cons c rest =>
    rw [List.dropWhile_cons, if_neg (by simp [h c rfl])]

/-- Python strip() is the identity when neither end is whitespace. -/
theorem pyStrip_eq_self (cs : List Char)
    (hh : ∀ c, cs.head? = some c → isPySpace c = false)
    (hl : ∀ c, cs.getLast? = some c → isPySpace c = false) :
    pyStrip cs = cs := by
  rw [pyStrip, dropWhile_eq_self_of_head cs hh,
    dropWhile_eq_self_of_head cs.reverse (by
      intro c hc
      exact hl c (by rwa [List.head?_reverse] at hc)),
    List.reverse_reverse]

/-- The characters of an entry line: three fields joined by single spaces. -/
theorem entryLine_data (mode : Nat) (fhash relStr : String) :
    (entryLine mode fhash relStr).data
      = (toString mode).data ++ ' ' :: (fhash.data ++ ' ' :: relStr.data) := by
  simp [entryLine, String.data_append]

/-- The two facts isToken packs. -/
theorem isToken_parts (s : String) (h : isToken s = true) :
    s.data ≠ [] ∧ ∀ c ∈ s.data, isPySpace c = false := by
  rw [isToken, Bool.and_eq_true] at h
  constructor
  · simpa using h.1
  · intro c hc
    simpa using List.all_eq_true.1 h.2 c hc

/-- An entry line built from three tokens parses back into its fields. -/
theorem pySplit_entryLine (mode : Nat) (fhash relStr : String)
    (hm : isToken (toString mode) = true) (hf : isToken fhash = true)
    (hr : isToken relStr = true) :
    pySplit (pyStrip (entryLine mode fhash relStr).data)
      = [(toString mode).data, fhash.data, relStr.data] := by
  obtain ⟨hm1, hm2⟩ := isToken_parts _ hm
  obtain ⟨hf1, hf2⟩ := isToken_parts _ hf
  obtain ⟨hr1, hr2⟩ := isToken_parts _ hr
  rw [entryLine_data, pyStrip_eq_self]
  · exact pySplit_three_tokens _ _ _ hm1 hf1 hr1 hm2 hf2 hr2
  · intro c hc
    obtain ⟨a, as, ha⟩ := List.exists_cons_of_ne_nil hm1
    rw [ha, List.cons_append] at hc
    simp only [List.head?_cons, Option.some.injEq] at hc
    subst hc
    exact hm2 a (ha ▸ List.mem_cons_self a as)
  · intro c hc
    have hshape : ((toString mode).data ++ ' ' :: (fhash.data ++ ' ' :: relStr.data)).getLast?
        = relStr.data.getLast? := by
      rw [List.getLast?_append_of_ne_nil _ (by simp),
        show (' ' :: (fhash.data ++ ' ' :: relStr.data))
            = (' ' :: fhash.data) ++ (' ' :: relStr.data) by simp,
        List.getLast?_append_of_ne_nil _ (by simp),
        show (' ' :: relStr.data) = [' '] ++ relStr.data by simp,
        List.getLast?_append_of_ne_nil _ hr1]
    rw [hshape] at hc
    exact hr2 c (mem_of_getLast?_eq _ _ hc)

/-- The index scan over wellformed lines: to_add survives exactly when no
line carries the fingerprint or the relative path. -/
theorem scanIndexFrom_of_wf (fhash relStr : String) (lines : List String)
    (hwf : ∀ l ∈ lines, lineFields l = true) (acc : Bool) :
    scanIndexFrom fhash relStr acc lines =
      .ok (acc && lines.all fun l => !(lineHashIs fhash l) && !(linePathIs relStr l)) := by
  induction lines generalizing acc with
  | nil => simp [scanIndexFrom]
  | cons e rest ih =>
    have h3 : (pySplit (pyStrip e.data)).length = 3 := by
      have := hwf e (by simp)
      rwa [lineFields, beq_iff_eq] at this
    obtain ⟨m, h, p, hp⟩ := List.length_eq_three.1 h3
    rw [show scanIndexFrom fhash relStr acc (e :: rest)
        = scanIndexFrom fhash relStr
            (acc && !(String.mk h == fhash) && !(String.mk p == relStr)) rest by
      rw [scanIndexFrom, hp]]
    rw [ih (fun l hl => hwf l (by simp [hl]))]
    simp only [lineHashIs, linePathIs, hp, List.all_cons]
    congr 1
    cases acc <;> cases String.mk h == fhash <;> cases String.mk p == relStr <;> simp

/-- The index scan as a single all-lines test. -/
theorem scanIndex_all (lines : List String) (fhash relStr : String)
    (hwf : ∀ l ∈ lines, lineFields l = true) :
    scanIndex lines fhash relStr =
      .ok (lines.all fun l => !(lineHashIs fhash l) && !(linePathIs relStr l)) := by
  rw [scanIndex, scanIndexFrom_of_wf fhash relStr lines hwf true, Bool.true_and]

/-- A candidate whose fingerprint or relative path already appears in the
index is rejected: addFile returns with no move and no index append (only
the lazy cache may have been populated by the read). -/
theorem addFile_dup (sha256hex : List Nat → String) (durableOk : Bool)
    (cfg : PitCfg) (st : PitSt) (c : Candidate) (i mode : Nat) (bytes : List Nat)
    (rel : FPath)
    (hv : verify_file cfg.root c = true)
    (hi : List.lookup c.resolved st.fs.files = some i)
    (hm : List.lookup i st.fs.modes = some mode)
    (hd : List.lookup i st.fs.data = some bytes)
    (hr : relativeTo c.resolved cfg.root.dropLast = some rel)
    (hwf : ∀ l ∈ (readIndex st).1, lineFields l = true)
    (hdup : ((readIndex st).1.any fun l =>
        lineHashIs (hash_content sha256hex bytes) l ||
          linePathIs (pathStr rel) l) = true) :
    addFile sha256hex durableOk cfg st c = .ok (readIndex st).2 := by
  have hall : ((readIndex st).1.all fun l =>
      !(lineHashIs (hash_content sha256hex bytes) l) &&
        !(linePathIs (pathStr rel) l)) = false := by
    obtain ⟨l, hl, hmatch⟩ := List.any_eq_true.1 hdup
    apply Bool.eq_false_iff.2
    intro hAll
    have h2 := List.all_eq_true.1 hAll l hl
    rw [Bool.and_eq_true] at h2
    rw [Bool.or_eq_true] at hmatch
    rcases hmatch with hx | hx
    · rw [hx] at h2
      simp at h2
    · rw [hx] at h2
      simp at h2
  have hscan : scanIndex (readIndex st).1 (hash_content sha256hex bytes) (pathStr rel)
      = .ok false := by
    rw [scanIndex_all (readIndex st).1 _ _ hwf, hall]
  simp [addFile, hv, hi, hm, hd, hr, hscan]

/-- State produced by a fresh (accepted) addFile. -/
def addedState (st : PitSt) (cfg : PitCfg) (i mode : Nat) (fhash relStr : String) : PitSt :=
  { fs := linkReadonly st.fs (addObjectPath cfg.objectStore fhash) i,
    indexFile := st.indexFile ++ entryLine mode fhash relStr ++ "\n",
    indexCache := some ((readIndex st).1 ++ [entryLine mode fhash relStr]),
    configExists := st.configExists }

/-- A fresh candidate (fingerprint and path absent from the index) is
accepted: its object is moved into the store and its entry appended. -/
theorem addFile_fresh (sha256hex : List Nat → String) (cfg : PitCfg) (st : PitSt)
    (c : Candidate) (i mode : Nat) (bytes : List Nat) (rel : FPath)
    (hv : verify_file cfg.root c = true)
    (hi : List.lookup c.resolved st.fs.files = some i)
    (hm : List.lookup i st.fs.modes = some mode)
    (hd : List.lookup i st.fs.data = some bytes)
    (hr : relativeTo c.resolved cfg.root.dropLast = some rel)
    (hwf : ∀ l ∈ (readIndex st).1, lineFields l = true)
    (hmiss : ∀ l ∈ (readIndex st).1,
      lineHashIs (hash_content sha256hex bytes) l = false ∧
        linePathIs (pathStr rel) l = false)
    (hcol1 : hasColon c.resolved = false)
    (hcol2 : hasColon (addObjectPath cfg.objectStore (hash_content sha256hex bytes)) = false)
    (hobj : List.lookup (addObjectPath cfg.objectStore (hash_content sha256hex bytes))
        st.fs.files = none) :
    addFile sha256hex true cfg st c =
      .ok (addedState st cfg i mode (hash_content sha256hex bytes) (pathStr rel)) := by
  have hall : ((readIndex st).1.all fun l =>
      !(lineHashIs (hash_content sha256hex bytes) l) &&
        !(linePathIs (pathStr rel) l)) = true :=
    List.all_eq_true.2 fun l hl => by rw [(hmiss l hl).1, (hmiss l hl).2]; rfl
  have hscan : scanIndex (readIndex st).1 (hash_content sha256hex bytes) (pathStr rel)
      = .ok true := by
    rw [scanIndex_all (readIndex st).1 _ _ hwf, hall]
  obtain ⟨hfs0, hif0, hcfg0, hcache0⟩ := readIndex_parts st
  have hmove : move (readIndex st).2.fs c.resolved
      (addObjectPath cfg.objectStore (hash_content sha256hex bytes))
      = .ok (linkReadonly st.fs
          (addObjectPath cfg.objectStore (hash_content sha256hex bytes)) i) := by
    rw [hfs0]
    exact move_local_ok st.fs _ _ i hcol1 hcol2 hi hobj
  simp [addFile, hv, hi, hm, hd, hr, hscan, hmove, add_to_index, addedState,
    hif0, hcfg0, hcache0]

/-- C2: a file whose fingerprint or relative path already appears in some
index entry is rejected by add's per-file step: no object is stored and no
entry is appended (only the lazy index cache may be populated by the read).
Consequently an accepted fresh file added twice yields exactly one index
entry for its path and one stored object: the second add is a no-op. -/
theorem C2_dedup_and_idempotent :
    (∀ (sha256hex : List Nat → String) (durableOk : Bool) (cfg : PitCfg) (st : PitSt)
        (c : Candidate) (i mode : Nat) (bytes : List Nat) (rel : FPath),
      verify_file cfg.root c = true →
      List.lookup c.resolved st.fs.files = some i →
      List.lookup i st.fs.modes = some mode →
      List.lookup i st.fs.data = some bytes →
      relativeTo c.resolved cfg.root.dropLast = some rel →
      (∀ l ∈ (readIndex st).1, lineFields l = true) →
      ((readIndex st).1.any fun l =>
          lineHashIs (hash_content sha256hex bytes) l ||
            linePathIs (pathStr rel) l) = true →
      addFile sha256hex durableOk cfg st c = .ok (readIndex st).2 ∧
        (readIndex st).2.fs = st.fs ∧ (readIndex st).2.indexFile = st.indexFile) ∧
    (∀ (sha256hex : List Nat → String) (cfg : PitCfg) (st : PitSt)
        (c : Candidate) (i mode : Nat) (bytes : List Nat) (rel : FPath),
      st.configExists = true →
      verify_file cfg.root c = true →
      List.lookup c.resolved st.fs.files = some i →
      List.lookup i st.fs.modes = some mode →
      List.lookup i st.fs.data = some bytes →
      relativeTo c.resolved cfg.root.dropLast = some rel →
      (∀ l ∈ (readIndex st).1, lineFields l = true) →
      (∀ l ∈ (readIndex st).1,
        lineHashIs (hash_content sha256hex bytes) l = false ∧
          linePathIs (pathStr rel) l = false) →
      isToken (toString mode) = true →
      isToken (hash_content sha256hex bytes) = true →
      isToken (pathStr rel) = true →
      hasColon c.resolved = false →
      hasColon (addObjectPath cfg.objectStore (hash_content sha256hex bytes)) = false →
      List.lookup (addObjectPath cfg.objectStore (hash_content sha256hex bytes))
          st.fs.files = none →
      ∃ st1, add sha256hex true cfg st [c] = .ok st1 ∧
        add sha256hex true cfg st1 [c] = .ok st1 ∧
        ((readIndex st1).1.countP fun l => linePathIs (pathStr rel) l) = 1 ∧
        List.lookup (addObjectPath cfg.objectStore (hash_content sha256hex bytes))
          st1.fs.files = some i) := by
  constructor
  · intro sha256hex durableOk cfg st c i mode bytes rel hv hi hm hd hr hwf hdup
    exact ⟨addFile_dup sha256hex durableOk cfg st c i mode bytes rel hv hi hm hd hr hwf hdup,
      (readIndex_parts st).1, (readIndex_parts st).2.1⟩
  · intro sha256hex cfg st c i mode bytes rel hce hv hi hm hd hr hwf hmiss hmtok hftok
      hrtok hcol1 hcol2 hobj
    have hfresh := addFile_fresh sha256hex cfg st c i mode bytes rel hv hi hm hd hr
      hwf hmiss hcol1 hcol2 hobj
    have hparse := pySplit_entryLine mode (hash_content sha256hex bytes) (pathStr rel)
      hmtok hftok hrtok
    have hfields : lineFields
        (entryLine mode (hash_content sha256hex bytes) (pathStr rel)) = true := by
      rw [lineFields, hparse]
      rfl
    have hhit : lineHashIs (hash_content sha256hex bytes)
        (entryLine mode (hash_content sha256hex bytes) (pathStr rel)) = true := by
      simp only [lineHashIs, hparse]
      simp
    have hphit : linePathIs (pathStr rel)
        (entryLine mode (hash_content sha256hex bytes) (pathStr rel)) = true := by
      simp only [linePathIs, hparse]
      simp
    have hread1 : readIndex (addedState st cfg i mode (hash_content sha256hex bytes)
          (pathStr rel))
        = ((readIndex st).1 ++ [entryLine mode (hash_content sha256hex bytes) (pathStr rel)],
          addedState st cfg i mode (hash_content sha256hex bytes) (pathStr rel)) := by
      simp [readIndex, addedState]
    have hi1 : List.lookup c.resolved
        (addedState st cfg i mode (hash_content sha256hex bytes) (pathStr rel)).fs.files
        = some i := by
      simp only [addedState, linkReadonly]
      exact lookup_append_left _ _ _ _ hi
    have hm1 : List.lookup i
        (addedState st cfg i mode (hash_content sha256hex bytes) (pathStr rel)).fs.modes
        = some 0o440 := by
      simp only [addedState, linkReadonly]
      exact lookup_insertAssoc_self _ _ _
    have hd1 : List.lookup i
        (addedState st cfg i mode (hash_content sha256hex bytes) (pathStr rel)).fs.data
        = some bytes := hd
    have hwf1 : ∀ l ∈ (readIndex (addedState st cfg i mode
        (hash_content sha256hex bytes) (pathStr rel))).1, lineFields l = true := by
      rw [hread1]
      intro l hl
      rcases List.mem_append.1 hl with h | h
      · exact hwf l h
      · rw [List.mem_singleton.1 h]
        exact hfields
    have hdup1 : ((readIndex (addedState st cfg i mode (hash_content sha256hex bytes)
          (pathStr rel))).1.any fun l =>
        lineHashIs (hash_content sha256hex bytes) l || linePathIs (pathStr rel) l)
        = true := by
      rw [hread1]
      refine List.any_eq_true.2
        ⟨entryLine mode (hash_content sha256hex bytes) (pathStr rel), by simp, ?_⟩
      simp [hhit]
    have h2 := addFile_dup sha256hex true cfg
      (addedState st cfg i mode (hash_content sha256hex bytes) (pathStr rel)) c i 0o440
      bytes rel hv hi1 hm1 hd1 hr hwf1 hdup1
    rw [hread1] at h2
    refine ⟨addedState st cfg i mode (hash_content sha256hex bytes) (pathStr rel),
      ?_, ?_, ?_, ?_⟩
    · simp [add, hce, hfresh]
    · simp only [add, addedState, hce, Bool.not_true, Bool.false_eq_true, if_false] at h2 ⊢
      simp [h2]
    · rw [hread1, List.countP_append]
      have hz : ((readIndex st).1.countP fun l => linePathIs (pathStr rel) l) = 0 :=
        List.countP_eq_zero.2 fun l hl => by simp [(hmiss l hl).2]
      simp [hz, hphit]
    · simp only [addedState, linkReadonly]
      rw [lookup_append_right _ _ _ hobj]
      simp [List.lookup]

/-! Concrete fixtures used by the witnesses below: a repository at
/home/u/.pit with one regular file /home/u/a.txt of five bytes, and a
digest stand-in mapping each byte to a lowercase letter. -/

def shaW : List Nat → String := fun l => String.mk (l.map fun n => Char.ofNat (97 + n % 26))

def bytesW : List Nat := [104, 101, 108, 108, 111]

def cfgW : PitCfg :=
  { root := ["home", "u", ".pit"], objectStore := ["home", "u", ".pit", "objects"] }

def fsW : FS :=
  { files := [(["home", "u", "a.txt"], 7)], dirs := [],
    modes := [(7, 420)], data := [(7, bytesW)] }

def stW : PitSt :=
  { fs := fsW, indexFile := "", indexCache := none, configExists := true }

def candW : Candidate :=
  { path := ["home", "u", "a.txt"], resolved := ["home", "u", "a.txt"], isSymlink := false }

def candSymW : Candidate :=
  { path := ["home", "u", "ln.txt"], resolved := ["home", "u", "a.txt"], isSymlink := true }

def stIdxW : PitSt :=
  { fs := fsW, indexFile := "420 abcde a.txt\n", indexCache := none, configExists := true }

/-- Witness for C2 at the concrete repository: all hypotheses hold and the
same file added twice leaves one entry and one object. -/
theorem C2_witness :
    ∃ st1, add shaW true cfgW stW [candW] = .ok st1 ∧
      add shaW true cfgW st1 [candW] = .ok st1 ∧
      ((readIndex st1).1.countP fun l =>
        linePathIs (pathStr (["a.txt"] : FPath)) l) = 1 ∧
      List.lookup (addObjectPath cfgW.objectStore (hash_content shaW bytesW))
        st1.fs.files = some 7 :=
  C2_dedup_and_idempotent.2 shaW cfgW stW candW 7 420 bytesW ["a.txt"]
    rfl (by decide) (by decide) (by decide) (by decide) (by decide) (by decide)
    (by decide) (by decide) (by decide) (by decide) (by decide) (by decide) (by decide)

/-- Witness for C3: a symbolic link is skipped, the state untouched. -/
theorem C3_witness : add shaW true cfgW stW [candSymW] = .ok stW :=
  C3_reject_symlink_or_inside_root shaW true cfgW stW candSymW (Or.inl rfl)

/-- Witness for C5 at a concrete hardlink into the store. -/
theorem C5_witness :
    ∃ fs', move fsW ["home", "u", "a.txt"] ["home", "u", ".pit", "objects", "ab", "c"]
        = .ok fs' ∧
      List.lookup (["home", "u", "a.txt"] : FPath) fs'.files = some 7 ∧
      List.lookup (["home", "u", ".pit", "objects", "ab", "c"] : FPath) fs'.files = some 7 ∧
      (∀ q ∈ (["home", "u", ".pit", "objects", "ab", "c"] : FPath).dropLast.inits,
        q ∈ fs'.dirs) ∧
      modeAt fs' ["home", "u", "a.txt"] = some 0o440 ∧
      modeAt fs' ["home", "u", ".pit", "objects", "ab", "c"] = some 0o440 ∧
      (0o440 : Nat) &&& 0o222 = 0 :=
  C5_move_local fsW ["home", "u", "a.txt"] ["home", "u", ".pit", "objects", "ab", "c"] 7
    (by decide) (by decide) (by decide) (by decide)

/-- Witness for C4 at the concrete empty in-sync index. -/
theorem C4_witness :
    add_to_index false st4start "x" = .error (.calledProcessError, st4start) ∧
      ∀ st', add_to_index true st4start "x" = .ok st' →
        st'.indexCache.map (fun l => l.map stripNL) =
          some ((readlinesS st'.indexFile).map stripNL) :=
  C4_add_to_index_writethrough st4start "x" (by decide) (Or.inl rfl) (by decide)

/-- Witness for C7: checkout of an unlisted path at a one-entry index. -/
theorem C7_witness :
    checkout cfgW stIdxW ["home", "u", "b.txt"] = .ok (readIndex stIdxW).2 ∧
      (readIndex stIdxW).2.fs = stIdxW.fs ∧
      (readIndex stIdxW).2.indexFile = stIdxW.indexFile :=
  C7_checkout_no_match cfgW stIdxW ["home", "u", "b.txt"] ["b.txt"]
    (by decide) (by decide) (by decide)

/-- Witness for C8 at a fresh target directory. -/
theorem C8_witness :
    ∃ s', init { dirs := [], plainFiles := [], configs := [] } ["home", "u"] = .ok s' ∧
      pitRootOf ["home", "u"] ∈ s'.dirs ∧
      (pitRootOf ["home", "u"] ++ ["index"]) ∈ s'.plainFiles ∧
      (pitRootOf ["home", "u"] ++ ["objects"]) ∈ s'.dirs ∧
      List.lookup (pitRootOf ["home", "u"] ++ ["config"]) s'.configs
        = some (pitRootOf ["home", "u"] ++ ["objects"]) :=
  (C8_init { dirs := [], plainFiles := [], configs := [] } ["home", "u"]).2
    (by decide) (by decide)

/-- Witness for C9: add on a repository with no configuration file. -/
theorem C9_witness :
    add shaW true cfgW { stW with configExists := false } [candW]
      = .ok { stW with configExists := false } :=
  C9_add_without_config shaW true cfgW { stW with configExists := false } [candW] rfl

/-- Witness for C10: remote source, colon-free local destination. -/
theorem C10_witness :
    move fsW ["h:remote", "f"] ["home", "u", "f"] = .error (.valueError, fsW) :=
  C10_remote_src_local_dst fsW ["h:remote", "f"] ["home", "u", "f"] (by decide) (by decide)

end PitSpec
